import Mathlib

/-!
Verification of the metrics-synchronization pipeline of a multi-tenant
e-commerce analytics backend (NestJS/TypeScript).  The development shallowly
embeds the date bucketing helpers, the provider clients (Shopify, Facebook,
Google), the daily merge step of the sync job, and the persistence layer,
and proves (or refutes) the behavioural properties stated in the project
specification.

Conventions of the embedding:
* JS timestamps are modelled as `Int` milliseconds since the Unix epoch;
  the runtime is assumed to operate with a UTC system timezone, so
  JS `Date.setDate(getDate() + 1)` advances an instant by exactly 86 400 000 ms.
* JS floating point money/ratio arithmetic is modelled over `ℚ`.
* JS `Map` objects are modelled as insertion-ordered association lists
  (`List (String × α)`), with `Map.get`/`Map.set` as `mapFind`/`mapSet`.
* Fallible async calls are modelled with `Except`/sum-like result types.
* `/` on `Int` below is Euclidean division, which agrees with floor
  division for the positive divisors used here.
-/

/-! ## Date / timezone helpers

`getUTCDateString` embeds `ShopifyService.getUTCDateString` (UTC calendar
components of a JS `Date`).  `getISTDateString` embeds the identical helpers
of `GoogleService` and `FacebookService` (shift the instant by +5:30, then
take UTC calendar components).  `civilFromDays` is the proleptic-Gregorian
civil-date-from-day-number computation performed internally by the
ECMAScript `Date` UTC getters.
-/

def msPerDay : Int := 86400000

def istOffsetMs : Int := 19800000

def civilFromDays (z : Int) : Int × Int × Int :=
  let z' := z + 719468
  let era := z' / 146097
  let doe := z' - era * 146097
  let yoe := (doe - doe / 1460 + doe / 36524 - doe / 146096) / 365
  let y := yoe + era * 400
  let doy := doe - (365 * yoe + yoe / 4 - yoe / 100)
  let mp := (5 * doy + 2) / 153
  let d := doy - (153 * mp + 2) / 5 + 1
  let m := if mp < 10 then mp + 3 else mp - 9
  (if m ≤ 2 then y + 1 else y, m, d)

def pad2 (n : Int) : String :=
  if n < 10 then "0" ++ toString n.toNat else toString n.toNat

def dateString (ymd : Int × Int × Int) : String :=
  toString ymd.1 ++ "-" ++ pad2 ymd.2.1 ++ "-" ++ pad2 ymd.2.2

def getUTCDateString (ms : Int) : String :=
  dateString (civilFromDays (ms / msPerDay))

def getISTDateString (ms : Int) : String :=
  getUTCDateString (ms + istOffsetMs)

def istDayNumber (ms : Int) : Int :=
  (ms + istOffsetMs) / msPerDay

theorem getISTDateString_eq_dateString (ms : Int) :
    getISTDateString ms = dateString (civilFromDays (istDayNumber ms)) := by
  unfold getISTDateString getUTCDateString istDayNumber
  rfl

theorem istDayNumber_add_days (ms : Int) (k : Nat) :
    istDayNumber (ms + k * msPerDay) = istDayNumber ms + k := by
  unfold istDayNumber msPerDay
  rw [show ms + (k : Int) * 86400000 + istOffsetMs
        = ms + istOffsetMs + (k : Int) * 86400000 by ring]
  rw [Int.add_mul_ediv_right _ _ (by norm_num : (86400000 : Int) ≠ 0)]

/-! ## Insertion-ordered string-keyed maps (JS `Map` model)

`mapFind` is `Map.get`, `mapSet` is `Map.set`: setting an existing key
replaces its value in place, setting a fresh key appends at the end,
matching JS `Map` insertion-order semantics.
-/

def mapFind {α : Type} (m : List (String × α)) (k : String) : Option α :=
  match m with
  | [] => none
  | p :: t => if p.1 = k then some p.2 else mapFind t k

def mapSet {α : Type} (m : List (String × α)) (k : String) (v : α) :
    List (String × α) :=
  match m with
  | [] => [(k, v)]
  | p :: t => if p.1 = k then (k, v) :: t else p :: mapSet t k v

def mapKeys {α : Type} (m : List (String × α)) : List String :=
  m.map Prod.fst

theorem mapFind_set_self {α : Type} (m : List (String × α)) (k : String) (v : α) :
    mapFind (mapSet m k v) k = some v := by
  induction m with
  | nil => simp [mapSet, mapFind]
  | cons p t ih =>
    by_cases h : p.1 = k
    · simp [mapSet, h, mapFind]
    · simp [mapSet, h, mapFind, ih]

theorem mapFind_set_ne {α : Type} (m : List (String × α)) (k k' : String) (v : α)
    (h : k ≠ k') : mapFind (mapSet m k v) k' = mapFind m k' := by
  induction m with
  | nil => simp [mapSet, mapFind, h]
  | cons p t ih =>
    by_cases hp : p.1 = k
    · simp [mapSet, hp, mapFind, h, ih]
    · simp [mapSet, hp, mapFind, ih]

theorem mapKeys_set {α : Type} (m : List (String × α)) (k : String) (v : α) :
    mapKeys (mapSet m k v) = if k ∈ mapKeys m then mapKeys m else mapKeys m ++ [k] := by
  induction m with
  | nil => simp [mapSet, mapKeys]
  | cons p t ih =>
    by_cases h : p.1 = k
    · simp [mapSet, h, mapKeys]
    · have h' : ¬ (k = p.1) := fun hk => h hk.symm
      simp only [mapSet, h, if_false, mapKeys, List.map_cons, List.mem_cons, h', false_or]
      by_cases hm : k ∈ List.map Prod.fst t
      · simp only [hm, if_true]
        have hh := ih
        simp only [mapKeys, hm, if_true] at hh
        rw [hh]
      · simp only [hm, if_false, List.cons_append]
        have hh := ih
        simp only [mapKeys, hm, if_false] at hh
        rw [hh]

theorem mem_mapKeys_set {α : Type} (m : List (String × α)) (k k' : String) (v : α) :
    k' ∈ mapKeys (mapSet m k v) ↔ k' ∈ mapKeys m ∨ k' = k := by
  rw [mapKeys_set]
  by_cases h : k ∈ mapKeys m
  · simp only [h, if_true]
    constructor
    · exact Or.inl
    · rintro (hk | rfl)
      · exact hk
      · exact h
  · simp [h]

theorem mapKeys_set_nodup {α : Type} (m : List (String × α)) (k : String) (v : α)
    (h : (mapKeys m).Nodup) : (mapKeys (mapSet m k v)).Nodup := by
  rw [mapKeys_set]
  by_cases hm : k ∈ mapKeys m
  · simpa [hm] using h
  · simp only [hm, if_false]
    refine List.Nodup.append h (List.nodup_singleton k) ?_
    intro x hx hxk
    simp at hxk
    exact hm (hxk ▸ hx)

theorem mapFind_isSome_iff {α : Type} (m : List (String × α)) (k : String) :
    (mapFind m k).isSome ↔ k ∈ mapKeys m := by
  induction m with
  | nil => simp [mapFind, mapKeys]
  | cons p t ih =>
    by_cases h : p.1 = k
    · simp [mapFind, h, mapKeys]
    · have h' : ¬ (k = p.1) := fun hk => h hk.symm
      simp [mapFind, h, mapKeys, h']
      simpa [mapKeys] using ih

theorem mapFind_eq_none_iff {α : Type} (m : List (String × α)) (k : String) :
    mapFind m k = none ↔ k ∉ mapKeys m := by
  rw [← mapFind_isSome_iff]
  cases mapFind m k <;> simp

/-! ## Shopify client: daily orders summary (`ShopifyService.fetchOrders`)

Orders arrive from the GraphQL API with an ISO `createdAt` instant, a
`totalPriceSet.shopMoney.amount`, and line items carrying a quantity and an
optional product.  `fetchOrders` groups orders into an in-memory map keyed
by `getUTCDateString(new Date(order.node.createdAt))`, accumulating order
count, order value and item count, then returns the values sorted by date.
-/

structure ShopifyProduct where
  id : String
  title : String
  imageUrl : String
  storeUrl : String
deriving Repr, DecidableEq

structure ShopifyLineItem where
  quantity : Nat
  product : Option ShopifyProduct
deriving Repr, DecidableEq

structure ShopifyOrder where
  createdAtMs : Int
  totalAmount : ℚ
  lineItems : List ShopifyLineItem
deriving Repr, DecidableEq

structure DailyOrdersSummary where
  date : String
  soldOrders : Nat
  orderValue : ℚ
  soldItems : Nat
deriving Repr, DecidableEq

def sumQuantities (items : List ShopifyLineItem) : Nat :=
  (items.map (fun i => i.quantity)).sum

def shopifyOrderDateKey (o : ShopifyOrder) : String :=
  getUTCDateString o.createdAtMs

def addOrderToDay (m : List (String × DailyOrdersSummary)) (o : ShopifyOrder) :
    List (String × DailyOrdersSummary) :=
  let dateKey := shopifyOrderDateKey o
  let daySummary := (mapFind m dateKey).getD ⟨dateKey, 0, 0, 0⟩
  mapSet m dateKey
    { daySummary with
      soldOrders := daySummary.soldOrders + 1
      orderValue := daySummary.orderValue + o.totalAmount
      soldItems := daySummary.soldItems + sumQuantities o.lineItems }

def fetchOrdersDaily (orders : List ShopifyOrder) : List DailyOrdersSummary :=
  ((orders.foldl addOrderToDay []).map Prod.snd).mergeSort
    (fun a b => decide (a.date ≤ b.date))

/-! ## Shopify client: per-product sales (`ShopifyService.fetchProductSales`)

Each order's total is prorated across its line items by quantity share:
`itemRevenue = (quantity / totalItems) * orderTotal` where `totalItems`
sums the quantities of all line items of the order.  Line items whose
product is null are skipped.
-/

structure ProductSalesData where
  productId : String
  productName : String
  productImage : String
  productUrl : String
  quantitySold : Nat
  revenue : ℚ
deriving Repr, DecidableEq

def addLineItemSale (orderTotal : ℚ) (totalItems : Nat)
    (m : List (String × ProductSalesData)) (item : ShopifyLineItem) :
    List (String × ProductSalesData) :=
  match item.product with
  | none => m
  | some product =>
    let itemRevenue : ℚ := ((item.quantity : ℚ) / (totalItems : ℚ)) * orderTotal
    let existing := (mapFind m product.id).getD
      ⟨product.id, product.title, product.imageUrl, product.storeUrl, 0, 0⟩
    mapSet m product.id
      { existing with
        quantitySold := existing.quantitySold + item.quantity
        revenue := existing.revenue + itemRevenue }

def addOrderProductSales (m : List (String × ProductSalesData)) (o : ShopifyOrder) :
    List (String × ProductSalesData) :=
  let totalItems := sumQuantities o.lineItems
  o.lineItems.foldl (addLineItemSale o.totalAmount totalItems) m

def fetchProductSales (orders : List ShopifyOrder) : List ProductSalesData :=
  (orders.foldl addOrderProductSales []).map Prod.snd

def productRevenueAt (m : List (String × ProductSalesData)) (pid : String) : ℚ :=
  ((mapFind m pid).map (fun e => e.revenue)).getD 0

def lineItemShare (orderTotal : ℚ) (totalItems : Nat) (item : ShopifyLineItem) : ℚ :=
  ((item.quantity : ℚ) / (totalItems : ℚ)) * orderTotal

theorem productRevenueAt_addLineItemSale (orderTotal : ℚ) (totalItems : Nat)
    (m : List (String × ProductSalesData)) (item : ShopifyLineItem) (pid : String) :
    productRevenueAt (addLineItemSale orderTotal totalItems m item) pid =
      productRevenueAt m pid +
        (match item.product with
         | none => 0
         | some product =>
             if product.id = pid then lineItemShare orderTotal totalItems item else 0) := by
  match hp : item.product with
  | none => simp [addLineItemSale, hp]
  | some product =>
    by_cases h : product.id = pid
    · subst h
      simp only [addLineItemSale, hp, productRevenueAt, mapFind_set_self, if_true]
      cases hf : mapFind m product.id <;>
        simp [hf, lineItemShare]
    · simp only [addLineItemSale, hp, productRevenueAt, if_neg h, add_zero]
      rw [mapFind_set_ne _ _ _ _ h]

theorem productRevenueAt_foldl (orderTotal : ℚ) (totalItems : Nat)
    (items : List ShopifyLineItem) (m : List (String × ProductSalesData)) (pid : String) :
    productRevenueAt (items.foldl (addLineItemSale orderTotal totalItems) m) pid =
      productRevenueAt m pid +
        ((items.filter (fun i => i.product.any (fun p => p.id == pid))).map
          (lineItemShare orderTotal totalItems)).sum := by
  induction items generalizing m with
  | nil => simp
  | cons item rest ih =>
    rw [List.foldl_cons, ih, productRevenueAt_addLineItemSale]
    match hp : item.product with
    | none => simp [List.filter_cons, hp, Option.any]
    | some product =>
      by_cases h : product.id = pid
      · simp [List.filter_cons, hp, Option.any, h, lineItemShare]
        ring
      · simp [List.filter_cons, hp, Option.any, h]

/-! ## Daily sync merge step (`SyncMetricsJob.handleDailySync`)

For one store, the job fetches the three providers' daily rows, then builds
a map keyed by date string.  `getOrCreateEntry` zero-initializes a fresh
entry; the Shopify pass assigns the three Shopify fields, the Facebook pass
assigns `facebookMetaSpend`, the Google pass assigns `googleAdSpend`.
The store id and the `date: new Date(dateStr)` field of each entry are the
map key and are omitted from the entry record here.
-/

structure DailyAdSpend where
  date : String
  spend : ℚ
deriving Repr, DecidableEq

structure MetricEntry where
  facebookMetaSpend : ℚ
  googleAdSpend : ℚ
  shopifySoldOrders : Nat
  shopifyOrderValue : ℚ
  shopifySoldItems : Nat
deriving Repr, DecidableEq

def zeroMetricEntry : MetricEntry := ⟨0, 0, 0, 0, 0⟩

def getOrCreateEntry (m : List (String × MetricEntry)) (dateStr : String) : MetricEntry :=
  (mapFind m dateStr).getD zeroMetricEntry

def applyShopifyRow (m : List (String × MetricEntry)) (row : DailyOrdersSummary) :
    List (String × MetricEntry) :=
  let entry := getOrCreateEntry m row.date
  mapSet m row.date
    { entry with
      shopifySoldOrders := row.soldOrders
      shopifyOrderValue := row.orderValue
      shopifySoldItems := row.soldItems }

def applyFacebookRow (m : List (String × MetricEntry)) (row : DailyAdSpend) :
    List (String × MetricEntry) :=
  let entry := getOrCreateEntry m row.date
  mapSet m row.date { entry with facebookMetaSpend := row.spend }

def applyGoogleRow (m : List (String × MetricEntry)) (row : DailyAdSpend) :
    List (String × MetricEntry) :=
  let entry := getOrCreateEntry m row.date
  mapSet m row.date { entry with googleAdSpend := row.spend }

def mergeDailyMetrics (shopifyData : List DailyOrdersSummary)
    (fbData googleSpend : List DailyAdSpend) : List (String × MetricEntry) :=
  googleSpend.foldl applyGoogleRow
    (fbData.foldl applyFacebookRow
      (shopifyData.foldl applyShopifyRow []))

/-! Generic key/invariant lemmas for the three merge passes. -/

theorem mem_keys_foldl {ρ : Type} (apply : List (String × MetricEntry) → ρ →
      List (String × MetricEntry)) (dateOf : ρ → String)
    (happly : ∀ m r k, k ∈ mapKeys (apply m r) ↔ k ∈ mapKeys m ∨ k = dateOf r)
    (rows : List ρ) (m : List (String × MetricEntry)) (k : String) :
    k ∈ mapKeys (rows.foldl apply m) ↔ k ∈ mapKeys m ∨ k ∈ rows.map dateOf := by
  induction rows generalizing m with
  | nil => simp
  | cons r rest ih =>
    rw [List.foldl_cons, ih, happly]
    simp only [List.map_cons, List.mem_cons]
    tauto

theorem nodup_keys_foldl {ρ : Type} (apply : List (String × MetricEntry) → ρ →
      List (String × MetricEntry)) (dateOf : ρ → String)
    (hupd : ∀ m r, ∃ v, apply m r = mapSet m (dateOf r) v)
    (rows : List ρ) (m : List (String × MetricEntry))
    (h : (mapKeys m).Nodup) : (mapKeys (rows.foldl apply m)).Nodup := by
  induction rows generalizing m with
  | nil => exact h
  | cons r rest ih =>
    rw [List.foldl_cons]
    obtain ⟨v, hv⟩ := hupd m r
    exact ih _ (hv ▸ mapKeys_set_nodup m (dateOf r) v h)

theorem mapFind_foldl_notMem {ρ : Type} (apply : List (String × MetricEntry) → ρ →
      List (String × MetricEntry)) (dateOf : ρ → String)
    (hupd : ∀ m r, ∃ v, apply m r = mapSet m (dateOf r) v)
    (rows : List ρ) (m : List (String × MetricEntry)) (k : String)
    (hk : k ∉ rows.map dateOf) :
    mapFind (rows.foldl apply m) k = mapFind m k := by
  induction rows generalizing m with
  | nil => rfl
  | cons r rest ih =>
    simp only [List.map_cons, List.mem_cons, not_or] at hk
    rw [List.foldl_cons, ih _ hk.2]
    obtain ⟨v, hv⟩ := hupd m r
    rw [hv, mapFind_set_ne _ _ _ _ (fun h => hk.1 h.symm)]

theorem entry_invariant_foldl {ρ : Type} (apply : List (String × MetricEntry) → ρ →
      List (String × MetricEntry)) (Q : MetricEntry → Prop)
    (hstep : ∀ m r k e, (∀ k' e', mapFind m k' = some e' → Q e') →
       mapFind (apply m r) k = some e → Q e)
    (rows : List ρ) (m : List (String × MetricEntry))
    (hm : ∀ k e, mapFind m k = some e → Q e) :
    ∀ k e, mapFind (rows.foldl apply m) k = some e → Q e := by
  induction rows generalizing m with
  | nil => exact hm
  | cons r rest ih =>
    rw [List.foldl_cons]
    exact ih _ (fun k e he => hstep m r k e hm he)

def entryAt (m : List (String × MetricEntry)) (k : String) : MetricEntry :=
  (mapFind m k).getD zeroMetricEntry

def shopProj (e : MetricEntry) : Nat × ℚ × Nat :=
  (e.shopifySoldOrders, e.shopifyOrderValue, e.shopifySoldItems)

theorem applyShopifyRow_eq_set (m : List (String × MetricEntry)) (row : DailyOrdersSummary) :
    applyShopifyRow m row = mapSet m row.date
      { getOrCreateEntry m row.date with
        shopifySoldOrders := row.soldOrders
        shopifyOrderValue := row.orderValue
        shopifySoldItems := row.soldItems } := rfl

theorem applyFacebookRow_eq_set (m : List (String × MetricEntry)) (row : DailyAdSpend) :
    applyFacebookRow m row = mapSet m row.date
      { getOrCreateEntry m row.date with facebookMetaSpend := row.spend } := rfl

theorem applyGoogleRow_eq_set (m : List (String × MetricEntry)) (row : DailyAdSpend) :
    applyGoogleRow m row = mapSet m row.date
      { getOrCreateEntry m row.date with googleAdSpend := row.spend } := rfl

theorem entryAt_set_self (m : List (String × MetricEntry)) (k : String) (v : MetricEntry) :
    entryAt (mapSet m k v) k = v := by
  simp [entryAt, mapFind_set_self]

theorem entryAt_set_ne (m : List (String × MetricEntry)) (k k' : String) (v : MetricEntry)
    (h : k ≠ k') : entryAt (mapSet m k v) k' = entryAt m k' := by
  simp [entryAt, mapFind_set_ne _ _ _ _ h]

theorem applyShopifyRow_preserves (m : List (String × MetricEntry))
    (row : DailyOrdersSummary) (k : String) :
    (entryAt (applyShopifyRow m row) k).facebookMetaSpend =
      (entryAt m k).facebookMetaSpend ∧
    (entryAt (applyShopifyRow m row) k).googleAdSpend =
      (entryAt m k).googleAdSpend := by
  by_cases h : row.date = k
  · subst h
    rw [applyShopifyRow_eq_set, entryAt_set_self]
    exact ⟨rfl, rfl⟩
  · rw [applyShopifyRow_eq_set, entryAt_set_ne _ _ _ _ h]
    exact ⟨rfl, rfl⟩

theorem applyFacebookRow_preserves (m : List (String × MetricEntry))
    (row : DailyAdSpend) (k : String) :
    shopProj (entryAt (applyFacebookRow m row) k) = shopProj (entryAt m k) ∧
    (entryAt (applyFacebookRow m row) k).googleAdSpend =
      (entryAt m k).googleAdSpend := by
  by_cases h : row.date = k
  · subst h
    rw [applyFacebookRow_eq_set, entryAt_set_self]
    exact ⟨rfl, rfl⟩
  · rw [applyFacebookRow_eq_set, entryAt_set_ne _ _ _ _ h]
    exact ⟨rfl, rfl⟩

theorem applyGoogleRow_preserves (m : List (String × MetricEntry))
    (row : DailyAdSpend) (k : String) :
    shopProj (entryAt (applyGoogleRow m row) k) = shopProj (entryAt m k) ∧
    (entryAt (applyGoogleRow m row) k).facebookMetaSpend =
      (entryAt m k).facebookMetaSpend := by
  by_cases h : row.date = k
  · subst h
    rw [applyGoogleRow_eq_set, entryAt_set_self]
    exact ⟨rfl, rfl⟩
  · rw [applyGoogleRow_eq_set, entryAt_set_ne _ _ _ _ h]
    exact ⟨rfl, rfl⟩

theorem shopify_foldl_preserves (rows : List DailyOrdersSummary)
    (m : List (String × MetricEntry)) (k : String) :
    (entryAt (rows.foldl applyShopifyRow m) k).facebookMetaSpend =
      (entryAt m k).facebookMetaSpend ∧
    (entryAt (rows.foldl applyShopifyRow m) k).googleAdSpend =
      (entryAt m k).googleAdSpend := by
  induction rows generalizing m with
  | nil => exact ⟨rfl, rfl⟩
  | cons row rest ih =>
    rw [List.foldl_cons]
    obtain ⟨h1, h2⟩ := applyShopifyRow_preserves m row k
    obtain ⟨h1', h2'⟩ := ih (applyShopifyRow m row)
    exact ⟨h1'.trans h1, h2'.trans h2⟩

theorem fb_foldl_preserves (rows : List DailyAdSpend)
    (m : List (String × MetricEntry)) (k : String) :
    shopProj (entryAt (rows.foldl applyFacebookRow m) k) = shopProj (entryAt m k) ∧
    (entryAt (rows.foldl applyFacebookRow m) k).googleAdSpend =
      (entryAt m k).googleAdSpend := by
  induction rows generalizing m with
  | nil => exact ⟨rfl, rfl⟩
  | cons row rest ih =>
    rw [List.foldl_cons]
    obtain ⟨h1, h2⟩ := applyFacebookRow_preserves m row k
    obtain ⟨h1', h2'⟩ := ih (applyFacebookRow m row)
    exact ⟨h1'.trans h1, h2'.trans h2⟩

theorem google_foldl_preserves (rows : List DailyAdSpend)
    (m : List (String × MetricEntry)) (k : String) :
    shopProj (entryAt (rows.foldl applyGoogleRow m) k) = shopProj (entryAt m k) ∧
    (entryAt (rows.foldl applyGoogleRow m) k).facebookMetaSpend =
      (entryAt m k).facebookMetaSpend := by
  induction rows generalizing m with
  | nil => exact ⟨rfl, rfl⟩
  | cons row rest ih =>
    rw [List.foldl_cons]
    obtain ⟨h1, h2⟩ := applyGoogleRow_preserves m row k
    obtain ⟨h1', h2'⟩ := ih (applyGoogleRow m row)
    exact ⟨h1'.trans h1, h2'.trans h2⟩

theorem mem_keys_merge (shopifyData : List DailyOrdersSummary)
    (fbData googleSpend : List DailyAdSpend) (k : String) :
    k ∈ mapKeys (mergeDailyMetrics shopifyData fbData googleSpend) ↔
      k ∈ shopifyData.map (fun r => r.date) ∨ k ∈ fbData.map (fun r => r.date) ∨
        k ∈ googleSpend.map (fun r => r.date) := by
  unfold mergeDailyMetrics
  rw [mem_keys_foldl applyGoogleRow (fun r => r.date)
      (fun m r k => by rw [applyGoogleRow_eq_set]; exact mem_mapKeys_set m r.date k _)]
  rw [mem_keys_foldl applyFacebookRow (fun r => r.date)
      (fun m r k => by rw [applyFacebookRow_eq_set]; exact mem_mapKeys_set m r.date k _)]
  rw [mem_keys_foldl applyShopifyRow (fun r => r.date)
      (fun m r k => by rw [applyShopifyRow_eq_set]; exact mem_mapKeys_set m r.date k _)]
  simp [mapKeys, or_assoc]

theorem nodup_keys_merge (shopifyData : List DailyOrdersSummary)
    (fbData googleSpend : List DailyAdSpend) :
    (mapKeys (mergeDailyMetrics shopifyData fbData googleSpend)).Nodup := by
  unfold mergeDailyMetrics
  refine nodup_keys_foldl applyGoogleRow (fun r => r.date)
    (fun m r => ⟨_, applyGoogleRow_eq_set m r⟩) _ _ ?_
  refine nodup_keys_foldl applyFacebookRow (fun r => r.date)
    (fun m r => ⟨_, applyFacebookRow_eq_set m r⟩) _ _ ?_
  refine nodup_keys_foldl applyShopifyRow (fun r => r.date)
    (fun m r => ⟨_, applyShopifyRow_eq_set m r⟩) _ _ ?_
  simp [mapKeys]

theorem merge_shop_default (shopifyData : List DailyOrdersSummary)
    (fbData googleSpend : List DailyAdSpend) (k : String)
    (hk : k ∉ shopifyData.map (fun r => r.date)) :
    shopProj (entryAt (mergeDailyMetrics shopifyData fbData googleSpend) k) =
      shopProj zeroMetricEntry := by
  unfold mergeDailyMetrics
  rw [(google_foldl_preserves _ _ _).1, (fb_foldl_preserves _ _ _).1]
  have h0 : mapFind (shopifyData.foldl applyShopifyRow []) k = none := by
    rw [mapFind_foldl_notMem applyShopifyRow (fun r => r.date)
      (fun m r => ⟨_, applyShopifyRow_eq_set m r⟩) _ _ _ hk]
    rfl
  simp [entryAt, h0]

theorem merge_fb_default (shopifyData : List DailyOrdersSummary)
    (fbData googleSpend : List DailyAdSpend) (k : String)
    (hk : k ∉ fbData.map (fun r => r.date)) :
    (entryAt (mergeDailyMetrics shopifyData fbData googleSpend) k).facebookMetaSpend = 0 := by
  unfold mergeDailyMetrics
  rw [(google_foldl_preserves _ _ _).2]
  have h1 : mapFind (fbData.foldl applyFacebookRow (shopifyData.foldl applyShopifyRow [])) k
      = mapFind (shopifyData.foldl applyShopifyRow []) k :=
    mapFind_foldl_notMem applyFacebookRow (fun r => r.date)
      (fun m r => ⟨_, applyFacebookRow_eq_set m r⟩) _ _ _ hk
  show (entryAt _ k).facebookMetaSpend = 0
  rw [show entryAt (fbData.foldl applyFacebookRow (shopifyData.foldl applyShopifyRow [])) k
      = entryAt (shopifyData.foldl applyShopifyRow []) k by simp [entryAt, h1]]
  rw [(shopify_foldl_preserves _ _ _).1]
  rfl

theorem merge_google_default (shopifyData : List DailyOrdersSummary)
    (fbData googleSpend : List DailyAdSpend) (k : String)
    (hk : k ∉ googleSpend.map (fun r => r.date)) :
    (entryAt (mergeDailyMetrics shopifyData fbData googleSpend) k).googleAdSpend = 0 := by
  unfold mergeDailyMetrics
  have h1 : mapFind (googleSpend.foldl applyGoogleRow
        (fbData.foldl applyFacebookRow (shopifyData.foldl applyShopifyRow []))) k
      = mapFind (fbData.foldl applyFacebookRow (shopifyData.foldl applyShopifyRow [])) k :=
    mapFind_foldl_notMem applyGoogleRow (fun r => r.date)
      (fun m r => ⟨_, applyGoogleRow_eq_set m r⟩) _ _ _ hk
  rw [show entryAt (googleSpend.foldl applyGoogleRow
        (fbData.foldl applyFacebookRow (shopifyData.foldl applyShopifyRow []))) k
      = entryAt (fbData.foldl applyFacebookRow (shopifyData.foldl applyShopifyRow [])) k by
        simp [entryAt, h1]]
  rw [(fb_foldl_preserves _ _ _).2, (shopify_foldl_preserves _ _ _).2]
  rfl

theorem shopify_foldl_value (rows : List DailyOrdersSummary) (row : DailyOrdersSummary) :
    ∀ m : List (String × MetricEntry), (rows.map (fun r => r.date)).Nodup → row ∈ rows →
    shopProj (entryAt (rows.foldl applyShopifyRow m) row.date) =
      (row.soldOrders, row.orderValue, row.soldItems) := by
  induction rows with
  | nil => intro m _ h; cases h
  | cons r rest ih =>
    intro m hnd hrow
    simp only [List.map_cons, List.nodup_cons] at hnd
    rw [List.foldl_cons]
    rcases List.mem_cons.mp hrow with hr | hmem
    · subst hr
      have hfix : mapFind (rest.foldl applyShopifyRow (applyShopifyRow m row)) row.date
          = mapFind (applyShopifyRow m row) row.date :=
        mapFind_foldl_notMem applyShopifyRow (fun x => x.date)
          (fun m x => ⟨_, applyShopifyRow_eq_set m x⟩) _ _ _ hnd.1
      rw [show entryAt (rest.foldl applyShopifyRow (applyShopifyRow m row)) row.date
          = entryAt (applyShopifyRow m row) row.date by simp [entryAt, hfix]]
      rw [applyShopifyRow_eq_set, entryAt_set_self]
      rfl
    · exact ih _ hnd.2 hmem

theorem fb_foldl_value (rows : List DailyAdSpend) (row : DailyAdSpend) :
    ∀ m : List (String × MetricEntry), (rows.map (fun r => r.date)).Nodup → row ∈ rows →
    (entryAt (rows.foldl applyFacebookRow m) row.date).facebookMetaSpend = row.spend := by
  induction rows with
  | nil => intro m _ h; cases h
  | cons r rest ih =>
    intro m hnd hrow
    simp only [List.map_cons, List.nodup_cons] at hnd
    rw [List.foldl_cons]
    rcases List.mem_cons.mp hrow with hr | hmem
    · subst hr
      have hfix : mapFind (rest.foldl applyFacebookRow (applyFacebookRow m row)) row.date
          = mapFind (applyFacebookRow m row) row.date :=
        mapFind_foldl_notMem applyFacebookRow (fun x => x.date)
          (fun m x => ⟨_, applyFacebookRow_eq_set m x⟩) _ _ _ hnd.1
      rw [show entryAt (rest.foldl applyFacebookRow (applyFacebookRow m row)) row.date
          = entryAt (applyFacebookRow m row) row.date by simp [entryAt, hfix]]
      rw [applyFacebookRow_eq_set, entryAt_set_self]
    · exact ih _ hnd.2 hmem

/-! ## Persistence: upsert by composite key

Modelled from the spec: the persistence service behind
`metricsService.createOrUpdate` (and the analogous per-product upsert) is
not part of the source tree — only its callers are — and the spec defines
it as: upsert each entry by its composite key; if a record exists for that
key, replace its fields; otherwise insert.  `upsertBy` is that operation
over a generic key projection.
-/

def upsertBy {κ α : Type} [DecidableEq κ] (key : α → κ) (db : List α) (r : α) :
    List α :=
  match db with
  | [] => [r]
  | x :: t => if key x = key r then r :: t else x :: upsertBy key t r

theorem keys_upsertBy {κ α : Type} [DecidableEq κ] (key : α → κ) (db : List α) (r : α) :
    (upsertBy key db r).map key =
      if key r ∈ db.map key then db.map key else db.map key ++ [key r] := by
  induction db with
  | nil => simp [upsertBy]
  | cons x t ih =>
    by_cases h : key x = key r
    · simp [upsertBy, h]
    · have h' : ¬ (key r = key x) := fun hk => h hk.symm
      simp only [upsertBy, h, if_false, List.map_cons, List.mem_cons, h', false_or]
      by_cases hm : key r ∈ t.map key
      · simp only [hm, if_true] at ih ⊢
        rw [ih]
      · simp only [hm, if_false, List.cons_append] at ih ⊢
        rw [ih]

theorem mem_keys_upsertBy {κ α : Type} [DecidableEq κ] (key : α → κ) (db : List α)
    (r : α) (k : κ) :
    k ∈ (upsertBy key db r).map key ↔ k ∈ db.map key ∨ k = key r := by
  rw [keys_upsertBy]
  by_cases h : key r ∈ db.map key
  · simp only [h, if_true]
    constructor
    · exact Or.inl
    · rintro (hk | rfl)
      · exact hk
      · exact h
  · simp [h]

theorem nodup_keys_upsertBy {κ α : Type} [DecidableEq κ] (key : α → κ) (db : List α)
    (r : α) (h : (db.map key).Nodup) : ((upsertBy key db r).map key).Nodup := by
  rw [keys_upsertBy]
  by_cases hm : key r ∈ db.map key
  · simpa [hm] using h
  · simp only [hm, if_false]
    refine List.Nodup.append h (List.nodup_singleton _) ?_
    intro x hx hxk
    simp at hxk
    exact hm (hxk ▸ hx)

theorem mem_upsertBy_of_key_ne {κ α : Type} [DecidableEq κ] (key : α → κ)
    (db : List α) (r x : α) (hx : x ∈ upsertBy key db r) (hk : key x ≠ key r) :
    x ∈ db := by
  induction db with
  | nil =>
    simp [upsertBy] at hx
    exact absurd (hx ▸ rfl) hk
  | cons y t ih =>
    by_cases h : key y = key r
    · simp only [upsertBy, h, if_true, List.mem_cons] at hx
      rcases hx with rfl | hx
      · exact absurd rfl hk
      · exact List.mem_cons_of_mem _ hx
    · simp only [upsertBy, h, if_false, List.mem_cons] at hx
      rcases hx with rfl | hx
      · exact List.mem_cons_self _ _
      · exact List.mem_cons_of_mem _ (ih hx)

theorem eq_of_mem_upsertBy_key_eq {κ α : Type} [DecidableEq κ] (key : α → κ)
    (db : List α) (r x : α) (hnd : (db.map key).Nodup)
    (hx : x ∈ upsertBy key db r) (hk : key x = key r) : x = r := by
  induction db with
  | nil => simpa [upsertBy] using hx
  | cons y t ih =>
    simp only [List.map_cons, List.nodup_cons] at hnd
    by_cases h : key y = key r
    · simp only [upsertBy, h, if_true, List.mem_cons] at hx
      rcases hx with rfl | hx
      · rfl
      · have hxm : key r ∈ t.map key := hk ▸ List.mem_map_of_mem key hx
        have hynm : key r ∉ t.map key := h ▸ hnd.1
        exact absurd hxm hynm
    · simp only [upsertBy, h, if_false, List.mem_cons] at hx
      rcases hx with rfl | hx
      · exact absurd hk h
      · exact ih hnd.2 hx

theorem upsertBy_eq_map_of_mem {κ α : Type} [DecidableEq κ] (key : α → κ)
    (db : List α) (r : α) (hnd : (db.map key).Nodup) (hm : key r ∈ db.map key) :
    upsertBy key db r = db.map (fun x => if key x = key r then r else x) := by
  induction db with
  | nil => simp at hm
  | cons y t ih =>
    simp only [List.map_cons, List.nodup_cons] at hnd
    simp only [List.map_cons, List.mem_cons] at hm
    by_cases h : key y = key r
    · simp only [upsertBy, h, if_true, List.map_cons]
      congr 1
      have : ∀ x ∈ t, (if key x = key r then r else x) = x := by
        intro x hx
        rw [if_neg]
        intro hxr
        exact hnd.1 (h ▸ hxr ▸ List.mem_map_of_mem key hx)
      exact ((List.map_congr_left this).trans (by simp)).symm
    · have hm' : key r ∈ t.map key := by
        rcases hm with hm | hm
        · exact absurd hm.symm h
        · exact hm
      simp only [upsertBy, h, if_false, List.map_cons, if_neg h]
      rw [ih hnd.2 hm']

def persistAll {κ α : Type} [DecidableEq κ] (key : α → κ) (db : List α)
    (entries : List α) : List α :=
  entries.foldl (upsertBy key) db

def lastWrite {κ α : Type} [DecidableEq κ] (key : α → κ) (entries : List α) (x : α) : α :=
  entries.foldl (fun a r => if key a = key r then r else a) x

theorem key_lastWrite {κ α : Type} [DecidableEq κ] (key : α → κ) (entries : List α) :
    ∀ x, key (lastWrite key entries x) = key x := by
  induction entries with
  | nil => intro x; rfl
  | cons r rest ih =>
    intro x
    show key (lastWrite key rest (if key x = key r then r else x)) = key x
    by_cases h : key x = key r
    · rw [if_pos h, ih r, h]
    · rw [if_neg h, ih x]

theorem lastWrite_of_not_mem {κ α : Type} [DecidableEq κ] (key : α → κ)
    (entries : List α) : ∀ x, key x ∉ entries.map key → lastWrite key entries x = x := by
  induction entries with
  | nil => intro x _; rfl
  | cons r rest ih =>
    intro x hx
    simp only [List.map_cons, List.mem_cons, not_or] at hx
    show lastWrite key rest (if key x = key r then r else x) = x
    rw [if_neg hx.1]
    exact ih x hx.2

theorem lastWrite_congr {κ α : Type} [DecidableEq κ] (key : α → κ)
    (entries : List α) : ∀ y z, key y = key z → key y ∈ entries.map key →
      lastWrite key entries y = lastWrite key entries z := by
  induction entries with
  | nil => intro y z _ h; simp at h
  | cons r rest ih =>
    intro y z hyz hmem
    show lastWrite key rest (if key y = key r then r else y)
        = lastWrite key rest (if key z = key r then r else z)
    by_cases h : key y = key r
    · rw [if_pos h, if_pos (hyz ▸ h)]
    · rw [if_neg h, if_neg (hyz ▸ h)]
      simp only [List.map_cons, List.mem_cons] at hmem
      rcases hmem with hmem | hmem
      · exact absurd hmem h
      · exact ih y z hyz hmem

theorem keys_persistAll_mono {κ α : Type} [DecidableEq κ] (key : α → κ)
    (entries : List α) : ∀ db : List α, ∀ k, k ∈ db.map key →
      k ∈ (persistAll key db entries).map key := by
  induction entries with
  | nil => intro db k hk; exact hk
  | cons r rest ih =>
    intro db k hk
    exact ih _ k ((mem_keys_upsertBy key db r k).mpr (Or.inl hk))

theorem keys_persistAll_of_mem {κ α : Type} [DecidableEq κ] (key : α → κ)
    (entries : List α) : ∀ db : List α, ∀ r ∈ entries,
      key r ∈ (persistAll key db entries).map key := by
  induction entries with
  | nil => intro db r hr; cases hr
  | cons e rest ih =>
    intro db r hr
    rcases List.mem_cons.mp hr with rfl | hr
    · exact keys_persistAll_mono key rest _ _
        ((mem_keys_upsertBy key db r _).mpr (Or.inr rfl))
    · exact ih _ r hr

theorem nodup_keys_persistAll {κ α : Type} [DecidableEq κ] (key : α → κ)
    (entries : List α) : ∀ db : List α, (db.map key).Nodup →
      ((persistAll key db entries).map key).Nodup := by
  induction entries with
  | nil => intro db h; exact h
  | cons r rest ih =>
    intro db h
    exact ih _ (nodup_keys_upsertBy key db r h)

theorem keys_map_replace {κ α : Type} [DecidableEq κ] (key : α → κ) (db : List α)
    (r : α) : (db.map (fun x => if key x = key r then r else x)).map key = db.map key := by
  rw [List.map_map]
  refine List.map_congr_left ?_
  intro x _
  show key (if key x = key r then r else x) = key x
  by_cases h : key x = key r
  · rw [if_pos h, h]
  · rw [if_neg h]

theorem persistAll_eq_map {κ α : Type} [DecidableEq κ] (key : α → κ)
    (entries : List α) : ∀ db : List α, (db.map key).Nodup →
      (∀ r ∈ entries, key r ∈ db.map key) →
      persistAll key db entries = db.map (lastWrite key entries) := by
  induction entries with
  | nil =>
    intro db _ _
    show db = db.map (lastWrite key [])
    have h : ∀ x ∈ db, lastWrite key ([] : List α) x = x := fun x _ => rfl
    rw [List.map_congr_left h, List.map_id' db]
  | cons r rest ih =>
    intro db hnd hpres
    show persistAll key (upsertBy key db r) rest = _
    rw [upsertBy_eq_map_of_mem key db r hnd (hpres r (List.mem_cons_self r rest))]
    rw [ih _ (by rw [keys_map_replace]; exact hnd)
        (fun r' hr' => by rw [keys_map_replace]; exact hpres r' (List.mem_cons_of_mem r hr'))]
    rw [List.map_map]
    refine List.map_congr_left ?_
    intro x _
    rfl

theorem mem_persistAll_of_key_not_mem {κ α : Type} [DecidableEq κ] (key : α → κ)
    (entries : List α) : ∀ db : List α, ∀ x ∈ persistAll key db entries,
      key x ∉ entries.map key → x ∈ db := by
  induction entries with
  | nil => intro db x hx _; exact hx
  | cons r rest ih =>
    intro db x hx hk
    simp only [List.map_cons, List.mem_cons, not_or] at hk
    exact mem_upsertBy_of_key_ne key db r x (ih _ x hx hk.2) hk.1

theorem lastWrite_fix_of_mem_persistAll {κ α : Type} [DecidableEq κ] (key : α → κ)
    (entries : List α) : ∀ db : List α, (db.map key).Nodup →
      ∀ x ∈ persistAll key db entries, lastWrite key entries x = x := by
  induction entries with
  | nil => intro db _ x _; rfl
  | cons r rest ih =>
    intro db hnd x hx
    have hrest : lastWrite key rest x = x :=
      ih (upsertBy key db r) (nodup_keys_upsertBy key db r hnd) x hx
    show lastWrite key rest (if key x = key r then r else x) = x
    by_cases h : key x = key r
    · rw [if_pos h]
      by_cases hmem : key r ∈ rest.map key
      · rw [lastWrite_congr key rest r x h.symm hmem]
        exact hrest
      · rw [lastWrite_of_not_mem key rest r hmem]
        have hx' : x ∈ upsertBy key db r :=
          mem_persistAll_of_key_not_mem key rest _ x hx (h ▸ hmem)
        exact (eq_of_mem_upsertBy_key_eq key db r x hnd hx' h).symm
    · rw [if_neg h]
      exact hrest

theorem persistAll_idempotent {κ α : Type} [DecidableEq κ] (key : α → κ)
    (db entries : List α) (hnd : (db.map key).Nodup) :
    persistAll key (persistAll key db entries) entries = persistAll key db entries := by
  have hnd1 := nodup_keys_persistAll key entries db hnd
  have hpres : ∀ r ∈ entries, key r ∈ (persistAll key db entries).map key :=
    fun r hr => keys_persistAll_of_mem key entries db r hr
  rw [persistAll_eq_map key entries _ hnd1 hpres]
  have hfix : ∀ x ∈ persistAll key db entries, lastWrite key entries x = x :=
    fun x hx => lastWrite_fix_of_mem_persistAll key entries db hnd x hx
  rw [List.map_congr_left hfix, List.map_id']

structure DailyMetricRecord where
  tenantId : Nat
  date : String
  facebookMetaSpend : ℚ
  googleAdSpend : ℚ
  shopifySoldOrders : Nat
  shopifyOrderValue : ℚ
  shopifySoldItems : Nat
deriving Repr, DecidableEq

def metricKey (r : DailyMetricRecord) : Nat × String := (r.tenantId, r.date)

def createOrUpdate (db : List DailyMetricRecord) (r : DailyMetricRecord) :
    List DailyMetricRecord :=
  upsertBy metricKey db r

def runDailySyncPersist (db : List DailyMetricRecord)
    (entries : List DailyMetricRecord) : List DailyMetricRecord :=
  entries.foldl createOrUpdate db

theorem runDailySyncPersist_eq_persistAll (db entries : List DailyMetricRecord) :
    runDailySyncPersist db entries = persistAll metricKey db entries := rfl

/-! ## Facebook client (`FacebookService.callFacebook` and `fetchAdSpend`)

`callFacebook` issues a GET; on failure, iff the API error carries
`error.code === 17` (rate limit) and fewer than 3 retries have happened, it
waits 2000 ms and recurses with `retry + 1`; any other failure (or a
code-17 failure at `retry = 3`) surfaces as a thrown error.  The model
returns the outcome paired with the list of delay durations performed.
`responses n` is the outcome the network produces for attempt `n`.
-/

inductive FbOutcome (α : Type) where
  | ok (data : α)
  | err (code : Option Int)
deriving Repr, DecidableEq

def callFacebook {α : Type} (responses : Nat → FbOutcome α) (retry : Nat) :
    FbOutcome α × List Nat :=
  match responses retry with
  | FbOutcome.ok data => (FbOutcome.ok data, [])
  | FbOutcome.err code =>
    if h : code = some 17 ∧ retry < 3 then
      let recur := callFacebook responses (retry + 1)
      (recur.1, 2000 :: recur.2)
    else (FbOutcome.err code, [])
termination_by 4 - retry
decreasing_by
  omega

structure FbSpendRow where
  dateStart : String
  spend : ℚ
deriving Repr, DecidableEq

def fbFetchAdSpend (responses : Nat → FbOutcome (List FbSpendRow)) :
    FbOutcome (List DailyAdSpend) :=
  match (callFacebook responses 0).1 with
  | FbOutcome.ok data =>
    if data.isEmpty then FbOutcome.ok []
    else FbOutcome.ok (data.map (fun row => DailyAdSpend.mk row.dateStart row.spend))
  | FbOutcome.err code => FbOutcome.err code

theorem callFacebook_ok {α : Type} (responses : Nat → FbOutcome α) (retry : Nat)
    (data : α) (h : responses retry = FbOutcome.ok data) :
    callFacebook responses retry = (FbOutcome.ok data, []) := by
  rw [callFacebook, h]

theorem callFacebook_err_no_retry {α : Type} (responses : Nat → FbOutcome α)
    (retry : Nat) (code : Option Int) (h : responses retry = FbOutcome.err code)
    (hstop : ¬ (code = some 17 ∧ retry < 3)) :
    callFacebook responses retry = (FbOutcome.err code, []) := by
  rw [callFacebook, h]
  simp [hstop]

theorem callFacebook_err_retry {α : Type} (responses : Nat → FbOutcome α)
    (retry : Nat) (h : responses retry = FbOutcome.err (some 17)) (hr : retry < 3) :
    callFacebook responses retry =
      ((callFacebook responses (retry + 1)).1,
        2000 :: (callFacebook responses (retry + 1)).2) := by
  rw [callFacebook, h]
  simp [hr]

/-! ## JS rounding helpers

`jsRound` is ECMAScript `Math.round` (round half toward positive
infinity); `round2` is the pervasive `Math.round(x * 100) / 100` idiom.
-/

def jsRound (q : ℚ) : Int := Int.floor (q + 1 / 2)

def round2 (q : ℚ) : ℚ := (jsRound (q * 100) : ℚ) / 100

theorem round2_mul_100_den (q : ℚ) : (round2 q * 100).den = 1 := by
  unfold round2
  rw [div_mul_cancel₀ _ (by norm_num : (100 : ℚ) ≠ 0)]
  exact Rat.den_intCast _

/-! ## Google client (`GoogleService.fetchAdSpend`)

The GAQL `searchStream` rows carry `segments.date` (an IST civil date
string, possibly absent) and `metrics.costMicros`.  The client sums
`costMicros / 1_000_000` per date into a map, rounds each total to two
decimals, sorts by date, then walks day by day from `from` to `to`
(advancing the cursor by one day per step), emitting the accumulated spend
for the cursor's IST date or `0` when no row matched.  On any API error the
catch block logs and returns an empty list.
-/

structure GoogleAdsRow where
  date : Option String
  costMicros : ℚ
deriving Repr, DecidableEq

def googleAccumulate (results : List GoogleAdsRow) : List (String × ℚ) :=
  results.foldl
    (fun m result =>
      match result.date with
      | none => m
      | some date =>
        let spend := result.costMicros / 1000000
        mapSet m date ((mapFind m date).getD 0 + spend))
    []

def googleDailySpend (results : List GoogleAdsRow) : List DailyAdSpend :=
  ((googleAccumulate results).map (fun p => DailyAdSpend.mk p.1 (round2 p.2))).mergeSort
    (fun a b => decide (a.date ≤ b.date))

def fillMissingDates (dailySpend : List DailyAdSpend) (cur toMs : Int) :
    List DailyAdSpend :=
  if h : cur ≤ toMs then
    let dateStr := getISTDateString cur
    { date := dateStr
      spend := ((dailySpend.find? (fun d => d.date == dateStr)).map
        (fun d => d.spend)).getD 0 } ::
      fillMissingDates dailySpend (cur + msPerDay) toMs
  else []
termination_by (toMs + msPerDay - cur).toNat
decreasing_by
  simp only [msPerDay] at *
  omega

def googleFetchAdSpendRows (results : List GoogleAdsRow) (fromMs toMs : Int) :
    List DailyAdSpend :=
  fillMissingDates (googleDailySpend results) fromMs toMs

def googleFetchAdSpend (apiResult : Except String (List GoogleAdsRow))
    (fromMs toMs : Int) : List DailyAdSpend :=
  match apiResult with
  | Except.error _ => []
  | Except.ok results => googleFetchAdSpendRows results fromMs toMs

def fillEntry (dailySpend : List DailyAdSpend) (t : Int) : DailyAdSpend :=
  { date := getISTDateString t
    spend := ((dailySpend.find? (fun d => d.date == getISTDateString t)).map
      (fun d => d.spend)).getD 0 }

def googleSpendAt (results : List GoogleAdsRow) (d : String) : ℚ :=
  (mapFind (googleAccumulate results) d).getD 0

theorem fillMissingDates_stop (dailySpend : List DailyAdSpend) (cur toMs : Int)
    (h : ¬ cur ≤ toMs) : fillMissingDates dailySpend cur toMs = [] := by
  rw [fillMissingDates]
  simp [h]

theorem fillMissingDates_step (dailySpend : List DailyAdSpend) (cur toMs : Int)
    (h : cur ≤ toMs) :
    fillMissingDates dailySpend cur toMs =
      fillEntry dailySpend cur :: fillMissingDates dailySpend (cur + msPerDay) toMs := by
  rw [fillMissingDates]
  simp [h, fillEntry]

theorem fillMissingDates_eq_range_aux (dailySpend : List DailyAdSpend) :
    ∀ n : Nat, ∀ cur toMs : Int, cur ≤ toMs →
      ((toMs - cur) / msPerDay).toNat = n →
      fillMissingDates dailySpend cur toMs =
        (List.range (n + 1)).map
          (fun k : Nat => fillEntry dailySpend (cur + (k : Int) * msPerDay)) := by
  intro n
  induction n with
  | zero =>
    intro cur toMs hle hn
    rw [fillMissingDates_step dailySpend cur toMs hle,
      fillMissingDates_stop dailySpend (cur + msPerDay) toMs
        (by simp only [msPerDay] at *; omega)]
    rw [show List.range 1 = [0] from rfl]
    simp
  | succ n ih =>
    intro cur toMs hle hn
    have hle' : cur + msPerDay ≤ toMs := by
      simp only [msPerDay] at *
      omega
    have hn' : ((toMs - (cur + msPerDay)) / msPerDay).toNat = n := by
      simp only [msPerDay] at *
      omega
    rw [fillMissingDates_step dailySpend cur toMs hle, ih _ _ hle' hn']
    conv_rhs => rw [List.range_succ_eq_map]
    rw [List.map_cons, List.map_map]
    congr 1
    · simp
    · refine List.map_congr_left ?_
      intro k _
      show fillEntry dailySpend (cur + msPerDay + (k : Int) * msPerDay)
          = fillEntry dailySpend (cur + ((k + 1 : Nat) : Int) * msPerDay)
      congr 1
      push_cast
      ring

theorem fillMissingDates_eq_range (dailySpend : List DailyAdSpend)
    (fromMs toMs : Int) (h : fromMs ≤ toMs) :
    fillMissingDates dailySpend fromMs toMs =
      (List.range (((toMs - fromMs) / msPerDay).toNat + 1)).map
        (fun k : Nat => fillEntry dailySpend (fromMs + (k : Int) * msPerDay)) :=
  fillMissingDates_eq_range_aux dailySpend _ fromMs toMs h rfl

theorem sum_map_div {α : Type} (l : List α) (g : α → ℚ) (c : ℚ) :
    (l.map (fun r => g r / c)).sum = (l.map g).sum / c := by
  induction l with
  | nil => simp
  | cons x t ih => simp [ih, add_div]

theorem googleAccumulate_spendAt_aux (results : List GoogleAdsRow) (d : String) :
    ∀ m : List (String × ℚ),
      ((mapFind (results.foldl
        (fun m result =>
          match result.date with
          | none => m
          | some date =>
            mapSet m date ((mapFind m date).getD 0 + result.costMicros / 1000000)) m) d).getD 0 : ℚ) =
      (mapFind m d).getD 0 +
        ((results.filter (fun r => r.date == some d)).map
          (fun r => r.costMicros / 1000000)).sum := by
  induction results with
  | nil => intro m; simp
  | cons r rest ih =>
    intro m
    rw [List.foldl_cons]
    match hd : r.date with
    | none =>
      simp only [hd, List.filter_cons]
      have : (r.date == some d) = false := by simp [hd]
      simp only [hd] at this
      simp [this, ih m]
    | some date =>
      by_cases hdd : date = d
      · subst hdd
        have hfilter : (r.date == some date) = true := by simp [hd]
        simp only [hd, List.filter_cons, hfilter, if_true, List.map_cons, List.sum_cons]
        rw [ih _, mapFind_set_self]
        simp [add_assoc, add_comm, add_left_comm]
      · have hfilter : (r.date == some d) = false := by simp [hd, hdd]
        simp only [hd, List.filter_cons, hfilter, List.map_cons]
        rw [ih _, mapFind_set_ne _ _ _ _ hdd]
        simp [hdd]

theorem googleSpendAt_eq (results : List GoogleAdsRow) (d : String) :
    googleSpendAt results d =
      ((results.filter (fun r => r.date == some d)).map (fun r => r.costMicros)).sum
        / 1000000 := by
  have h := googleAccumulate_spendAt_aux results d []
  rw [← sum_map_div]
  simpa [googleSpendAt, googleAccumulate, mapFind] using h

theorem mem_keys_googleAccumulate (results : List GoogleAdsRow) (d : String) :
    ∀ m : List (String × ℚ),
      d ∈ mapKeys (results.foldl
        (fun m result =>
          match result.date with
          | none => m
          | some date =>
            mapSet m date ((mapFind m date).getD 0 + result.costMicros / 1000000)) m) →
      d ∈ mapKeys m ∨ ∃ r ∈ results, r.date = some d := by
  induction results with
  | nil => intro m hm; exact Or.inl hm
  | cons r rest ih =>
    intro m hm
    rw [List.foldl_cons] at hm
    match hd : r.date with
    | none =>
      simp only [hd] at hm
      rcases ih _ hm with h | ⟨r', hr', hd'⟩
      · exact Or.inl h
      · exact Or.inr ⟨r', List.mem_cons_of_mem r hr', hd'⟩
    | some date =>
      simp only [hd] at hm
      rcases ih _ hm with h | ⟨r', hr', hd'⟩
      · rcases (mem_mapKeys_set _ _ _ _).mp h with h | rfl
        · exact Or.inl h
        · exact Or.inr ⟨r, List.mem_cons_self r rest, hd⟩
      · exact Or.inr ⟨r', List.mem_cons_of_mem r hr', hd'⟩

theorem mem_googleDailySpend (results : List GoogleAdsRow) (x : DailyAdSpend)
    (hx : x ∈ googleDailySpend results) :
    (∃ r ∈ results, r.date = some x.date) ∧ ∃ q : ℚ, x.spend = round2 q := by
  unfold googleDailySpend at hx
  rw [(List.mergeSort_perm _ _).mem_iff] at hx
  rcases List.mem_map.mp hx with ⟨p, hp, rfl⟩
  constructor
  · have hkey : p.1 ∈ mapKeys (googleAccumulate results) := List.mem_map_of_mem Prod.fst hp
    rcases mem_keys_googleAccumulate results p.1 [] (by simpa [googleAccumulate] using hkey)
      with h | h
    · simp [mapKeys] at h
    · exact h
  · exact ⟨p.2, rfl⟩

theorem googleDailySpend_find_none (results : List GoogleAdsRow) (d : String)
    (hnone : ∀ r ∈ results, r.date ≠ some d) :
    (googleDailySpend results).find? (fun x => x.date == d) = none := by
  rw [List.find?_eq_none]
  intro x hx
  rcases mem_googleDailySpend results x hx with ⟨⟨r, hr, hrd⟩, _⟩
  simp only [beq_iff_eq]
  intro hxd
  exact hnone r hr (hxd ▸ hrd)

/-! ## Product full-rebuild sync (`SyncProductMetricsJob.handleDailyProductSync`)

For each store the job first calls `resetStoreProducts` (delete the store's
whole persisted product-metric set), then calls
`shopifyService.fetchProductSales`; on success it upserts every fetched
product, on failure `fetchProductSales` rethrows and the per-store catch
only logs, so the state left behind is the post-reset state.
-/

structure ProductMetric where
  productId : String
  productName : String
  productImage : String
  productUrl : String
  quantitySold : Nat
  revenue : ℚ
deriving Repr, DecidableEq

def resetStoreProducts (_db : List ProductMetric) : List ProductMetric :=
  []

def upsertProductMetric (db : List ProductMetric) (p : ProductMetric) :
    List ProductMetric :=
  upsertBy (fun x => x.productId) db p

def toProductMetric (p : ProductSalesData) : ProductMetric :=
  ⟨p.productId, p.productName, p.productImage, p.productUrl, p.quantitySold, p.revenue⟩

def handleDailyProductSyncStore (db : List ProductMetric)
    (fetchResult : Except String (List ProductSalesData)) : List ProductMetric :=
  let dbReset := resetStoreProducts db
  match fetchResult with
  | Except.error _ => dbReset
  | Except.ok productSales =>
    productSales.foldl (fun acc p => upsertProductMetric acc (toProductMetric p)) dbReset

/-! ## Facebook metrics calculation (`FacebookService.calculateMetrics`)

Derived ratio metrics guard each division by its denominator:
`costPerResult` by `results`, `cpm`/`ctr`/`linkCtr` by `impressions`,
`cpc` by `clicks`, `resultRoas` by `spend` (and `resultsValue`), producing
`0` instead of dividing by zero.  The `detailedResults` label mapping is
omitted here: it carries no numeric content.
-/

structure FbAction where
  actionType : String
  value : ℚ
deriving Repr, DecidableEq

structure FbInsight where
  spend : ℚ
  impressions : Nat
  reach : Nat
  frequency : ℚ
  clicks : Nat
  inlineLinkClicks : Nat
  actions : List FbAction
  actionValues : List FbAction
deriving Repr, DecidableEq

def getActionValue (insight : FbInsight) (t : String) : ℚ :=
  ((insight.actions.find? (fun a => a.actionType == t)).map (fun a => a.value)).getD 0

def getActionCurrency (insight : FbInsight) (t : String) : ℚ :=
  ((insight.actionValues.find? (fun a => a.actionType == t)).map (fun a => a.value)).getD 0

def primaryResults (insight : FbInsight) (objective : String) : ℚ :=
  match objective.toLower with
  | "conversions" | "outcome_sales" =>
    getActionValue insight "offsite_conversion.fb_pixel_purchase"
  | "lead_generation" | "outcome_leads" => getActionValue insight "lead"
  | "link_clicks" | "outcome_traffic" => (insight.inlineLinkClicks : ℚ)
  | "post_engagement" | "outcome_engagement" => getActionValue insight "post_engagement"
  | "app_installs" | "outcome_app_promotion" => getActionValue insight "app_install"
  | "video_views" => getActionValue insight "video_view"
  | _ =>
    let purchases := getActionValue insight "offsite_conversion.fb_pixel_purchase"
    if purchases = 0 then (insight.inlineLinkClicks : ℚ) else purchases

structure FbCalculated where
  results : ℚ
  reach : Nat
  impressions : Nat
  frequency : ℚ
  costPerResult : ℚ
  amountSpent : ℚ
  cpm : ℚ
  linkClicks : Nat
  cpc : ℚ
  ctr : ℚ
  linkCtr : ℚ
  landingPageViews : ℚ
  resultRoas : ℚ
  resultsValue : ℚ
deriving Repr, DecidableEq

def calculateMetrics (insight : FbInsight) (objective : String) : FbCalculated :=
  let spend := insight.spend
  let impressions := insight.impressions
  let clicks := insight.clicks
  let linkClicks := insight.inlineLinkClicks
  let results := primaryResults insight objective
  let resultsValue := getActionCurrency insight "offsite_conversion.fb_pixel_purchase"
  { results := results
    reach := insight.reach
    impressions := impressions
    frequency := round2 insight.frequency
    costPerResult := if results > 0 then round2 (spend / results) else 0
    amountSpent := round2 spend
    cpm := if impressions > 0 then round2 (spend / (impressions : ℚ) * 1000) else 0
    linkClicks := linkClicks
    cpc := if clicks > 0 then round2 (spend / (clicks : ℚ)) else 0
    ctr := if impressions > 0 then
        ((jsRound ((clicks : ℚ) / (impressions : ℚ) * 10000) : ℚ) / 100) else 0
    linkCtr := if impressions > 0 then
        ((jsRound ((linkClicks : ℚ) / (impressions : ℚ) * 10000) : ℚ) / 100) else 0
    landingPageViews := getActionValue insight "landing_page_view"
    resultRoas := if resultsValue > 0 ∧ spend > 0 then round2 (resultsValue / spend) else 0
    resultsValue := round2 resultsValue }

/-! ## Claim theorems -/

/-- Claim C1: the spec asserts that the daily orders path buckets each order
to its IST civil date (+5:30 shift before extracting the calendar date), so
an order timestamped 2024-06-01T19:00:00Z should land on 2024-06-02.  The
code's `ShopifyService.getUTCDateString` applies no shift: evaluated at the
claim's own example instant (epoch ms 1717268400000), the bucket key is the
UTC civil date 2024-06-01, while the IST conversion used by the other two
providers yields 2024-06-02. -/
theorem shopify_daily_bucket_uses_utc_not_ist :
    shopifyOrderDateKey ⟨1717268400000, 100, [⟨1, none⟩]⟩ = "2024-06-01" ∧
    getISTDateString 1717268400000 = "2024-06-02" ∧
    (fetchOrdersDaily [⟨1717268400000, 100, [⟨1, none⟩]⟩]).map (fun s => s.date)
      = ["2024-06-01"] := by
  refine ⟨by decide, by decide, ?_⟩
  simp only [fetchOrdersDaily, List.foldl_cons, List.foldl_nil, addOrderToDay,
    mapFind, mapSet, List.map_cons, List.map_nil, List.mergeSort_singleton]
  decide

/-- Claim C5: each order's total revenue is prorated across its line items
by quantity share, itemRevenue = (quantity / totalOrderItems) * orderTotal:
processing one order adds exactly the quantity-share sum to each product's
revenue, and the spec's example (total 100, quantities 3 and 1) yields
product revenues 75 and 25. -/
theorem product_sales_revenue_proration :
    (∀ (m : List (String × ProductSalesData)) (o : ShopifyOrder) (pid : String),
      productRevenueAt (addOrderProductSales m o) pid =
        productRevenueAt m pid +
          ((o.lineItems.filter (fun i => i.product.any (fun p => p.id == pid))).map
            (lineItemShare o.totalAmount (sumQuantities o.lineItems))).sum) ∧
    (fetchProductSales
        [⟨0, 100, [⟨3, some ⟨"A", "Alpha", "", ""⟩⟩, ⟨1, some ⟨"B", "Beta", "", ""⟩⟩]⟩]).map
      (fun p => (p.productId, p.revenue)) = [("A", 75), ("B", 25)] := by
  constructor
  · intro m o pid
    exact productRevenueAt_foldl o.totalAmount (sumQuantities o.lineItems) o.lineItems m pid
  · have hab : ("A" : String) ≠ "B" := by decide
    norm_num [fetchProductSales, addOrderProductSales, addLineItemSale, sumQuantities,
      mapSet, mapFind, hab]

/-- Claim C2: over arbitrary per-provider daily row lists with overlapping
or disjoint dates, the daily-sync merge produces exactly one entry per
distinct date string (no duplicate keys, a key for exactly the dates that
occur), and in every merged entry each field whose source contributed no
row for that date is zero. -/
theorem merge_one_entry_per_date_zero_defaults
    (shopifyData : List DailyOrdersSummary) (fbData googleSpend : List DailyAdSpend) :
    (mapKeys (mergeDailyMetrics shopifyData fbData googleSpend)).Nodup ∧
    (∀ k, k ∈ mapKeys (mergeDailyMetrics shopifyData fbData googleSpend) ↔
      k ∈ shopifyData.map (fun r => r.date) ∨ k ∈ fbData.map (fun r => r.date) ∨
        k ∈ googleSpend.map (fun r => r.date)) ∧
    (∀ k e, mapFind (mergeDailyMetrics shopifyData fbData googleSpend) k = some e →
      ((k ∉ shopifyData.map (fun r => r.date)) →
        e.shopifySoldOrders = 0 ∧ e.shopifyOrderValue = 0 ∧ e.shopifySoldItems = 0) ∧
      ((k ∉ fbData.map (fun r => r.date)) → e.facebookMetaSpend = 0) ∧
      ((k ∉ googleSpend.map (fun r => r.date)) → e.googleAdSpend = 0)) := by
  refine ⟨nodup_keys_merge _ _ _, fun k => mem_keys_merge _ _ _ k, ?_⟩
  intro k e he
  have hat : entryAt (mergeDailyMetrics shopifyData fbData googleSpend) k = e := by
    simp [entryAt, he]
  refine ⟨?_, ?_, ?_⟩
  · intro hk
    have h := merge_shop_default shopifyData fbData googleSpend k hk
    rw [hat] at h
    simp only [shopProj, zeroMetricEntry, Prod.mk.injEq] at h
    exact ⟨h.1, h.2.1, h.2.2⟩
  · intro hk
    have h := merge_fb_default shopifyData fbData googleSpend k hk
    rw [hat] at h
    exact h
  · intro hk
    have h := merge_google_default shopifyData fbData googleSpend k hk
    rw [hat] at h
    exact h

theorem merge_one_entry_per_date_zero_defaults_witness :
    (entryAt (mergeDailyMetrics [⟨"2024-06-01", 1, 10, 2⟩] [⟨"2024-06-02", 5⟩] [])
      "2024-06-02").shopifySoldOrders = 0 ∧
    (entryAt (mergeDailyMetrics [⟨"2024-06-01", 1, 10, 2⟩] [⟨"2024-06-02", 5⟩] [])
      "2024-06-02").googleAdSpend = 0 := by
  have h := merge_one_entry_per_date_zero_defaults [⟨"2024-06-01", 1, 10, 2⟩]
    [⟨"2024-06-02", 5⟩] []
  have hmem : "2024-06-02" ∈
      mapKeys (mergeDailyMetrics [⟨"2024-06-01", 1, 10, 2⟩] [⟨"2024-06-02", 5⟩] []) :=
    (h.2.1 "2024-06-02").mpr (Or.inr (Or.inl (by simp)))
  obtain ⟨e, he⟩ := Option.isSome_iff_exists.mp ((mapFind_isSome_iff _ _).mpr hmem)
  have hat : entryAt (mergeDailyMetrics [⟨"2024-06-01", 1, 10, 2⟩] [⟨"2024-06-02", 5⟩] [])
      "2024-06-02" = e := by
    simp [entryAt, he]
  rw [hat]
  refine ⟨((h.2.2 _ e he).1 (by decide)).1, (h.2.2 _ e he).2.2 (by simp)⟩

/-- Claim C3: persisting a sync run's merged entries is an upsert by the
composite key (tenantId, date): starting from a store with at most one
record per key, a run preserves that invariant, and replaying the same run
leaves the store in exactly the same state (overwrite, not duplicate).
The persistence primitive is modelled from the spec since
`MetricsService.createOrUpdate` is outside the source tree. -/
theorem daily_sync_persist_idempotent (db entries : List DailyMetricRecord)
    (hnd : (db.map metricKey).Nodup) :
    ((runDailySyncPersist db entries).map metricKey).Nodup ∧
    runDailySyncPersist (runDailySyncPersist db entries) entries =
      runDailySyncPersist db entries := by
  simp only [runDailySyncPersist_eq_persistAll]
  exact ⟨nodup_keys_persistAll metricKey entries db hnd,
    persistAll_idempotent metricKey db entries hnd⟩

theorem daily_sync_persist_idempotent_witness :
    ((runDailySyncPersist [] [⟨1, "2024-06-01", 3, 4, 1, 10, 2⟩,
        ⟨1, "2024-06-02", 0, 0, 0, 0, 0⟩]).map metricKey).Nodup ∧
    runDailySyncPersist
        (runDailySyncPersist [] [⟨1, "2024-06-01", 3, 4, 1, 10, 2⟩,
          ⟨1, "2024-06-02", 0, 0, 0, 0, 0⟩])
        [⟨1, "2024-06-01", 3, 4, 1, 10, 2⟩, ⟨1, "2024-06-02", 0, 0, 0, 0, 0⟩] =
      runDailySyncPersist [] [⟨1, "2024-06-01", 3, 4, 1, 10, 2⟩,
        ⟨1, "2024-06-02", 0, 0, 0, 0, 0⟩] :=
  daily_sync_persist_idempotent [] _ (by simp)

/-- Claim C4: `callFacebook` retries exactly the code-17 (rate limit)
failures, with a fixed 2000 ms delay per retry and at most 3 retries: two
code-17 failures followed by a success yield the successful result after
two delays; a non-17 error is surfaced immediately with no retry; and when
every attempt fails with code 17 the failure surfaces after the third
retry (four attempts, three delays). -/
theorem facebook_rate_limit_retry {α : Type} (responses : Nat → FbOutcome α) :
    (∀ data : α, responses 0 = FbOutcome.err (some 17) →
      responses 1 = FbOutcome.err (some 17) → responses 2 = FbOutcome.ok data →
      callFacebook responses 0 = (FbOutcome.ok data, [2000, 2000])) ∧
    (∀ code, code ≠ some 17 → responses 0 = FbOutcome.err code →
      callFacebook responses 0 = (FbOutcome.err code, [])) ∧
    ((∀ i, i ≤ 3 → responses i = FbOutcome.err (some 17)) →
      callFacebook responses 0 = (FbOutcome.err (some 17), [2000, 2000, 2000])) := by
  refine ⟨?_, ?_, ?_⟩
  · intro data h0 h1 h2
    rw [callFacebook_err_retry responses 0 h0 (by norm_num),
      callFacebook_err_retry responses 1 h1 (by norm_num),
      callFacebook_ok responses 2 data h2]
  · intro code hc h0
    exact callFacebook_err_no_retry responses 0 code h0 (fun hcc => hc hcc.1)
  · intro hall
    rw [callFacebook_err_retry responses 0 (hall 0 (by norm_num)) (by norm_num),
      callFacebook_err_retry responses 1 (hall 1 (by norm_num)) (by norm_num),
      callFacebook_err_retry responses 2 (hall 2 (by norm_num)) (by norm_num),
      callFacebook_err_no_retry responses 3 (some 17) (hall 3 le_rfl) (by simp)]

theorem facebook_rate_limit_retry_witness :
    callFacebook (fun i => if i < 2 then FbOutcome.err (some 17) else FbOutcome.ok 42) 0
      = (FbOutcome.ok 42, [2000, 2000]) ∧
    callFacebook (fun _ => FbOutcome.err (some 500) : Nat → FbOutcome Nat) 0
      = (FbOutcome.err (some 500), []) ∧
    callFacebook (fun _ => FbOutcome.err (some 17) : Nat → FbOutcome Nat) 0
      = (FbOutcome.err (some 17), [2000, 2000, 2000]) :=
  ⟨(facebook_rate_limit_retry _).1 42 rfl rfl rfl,
    (facebook_rate_limit_retry _).2.1 (some 500) (by simp) rfl,
    (facebook_rate_limit_retry _).2.2 (fun i _ => rfl)⟩

theorem fbFetchAdSpend_err (responses : Nat → FbOutcome (List FbSpendRow))
    (code : Option Int) (h : (callFacebook responses 0).1 = FbOutcome.err code) :
    fbFetchAdSpend responses = FbOutcome.err code := by
  unfold fbFetchAdSpend
  rw [h]

/-- Claim C6 counterexample: the claim says every daily-spend provider
client catches errors and returns an empty result set, but the audited
`FacebookService.fetchAdSpend` (its catch block logs the failure and then
rethrows) propagates the error: with every attempt failing with a non-17
API error, the call surfaces the error instead of returning the empty
list. -/
theorem facebook_adspend_rethrows :
    fbFetchAdSpend (fun _ => FbOutcome.err (some 500)) = FbOutcome.err (some 500) ∧
    FbOutcome.err (some 500) ≠ FbOutcome.ok ([] : List DailyAdSpend) := by
  constructor
  · exact fbFetchAdSpend_err _ (some 500)
      (by rw [callFacebook_err_no_retry _ 0 (some 500) rfl (by simp)])
  · simp

/-- Claim C6 (amended): Google's daily-spend client catches provider errors
and returns an empty list, so when Google fails while Shopify and Facebook
succeed, the merged record for each date keeps the successful providers'
values with googleAdSpend = 0; the audited Facebook daily-spend client, by
contrast, rethrows the surfaced error rather than returning an empty
result set (and the enclosing per-tenant catch then aborts that tenant's
merge for the run). -/
theorem daily_spend_channel_degradation :
    (∀ (e : String) (fromMs toMs : Int),
      googleFetchAdSpend (Except.error e) fromMs toMs = []) ∧
    (∀ (responses : Nat → FbOutcome (List FbSpendRow)) (code : Option Int),
      (callFacebook responses 0).1 = FbOutcome.err code →
      fbFetchAdSpend responses = FbOutcome.err code) ∧
    (∀ (shopifyData : List DailyOrdersSummary) (fbData : List DailyAdSpend) (k : String)
      (e : MetricEntry), mapFind (mergeDailyMetrics shopifyData fbData []) k = some e →
      e.googleAdSpend = 0) ∧
    (∀ (shopifyData : List DailyOrdersSummary) (fbData : List DailyAdSpend)
      (r : DailyOrdersSummary), (shopifyData.map (fun x => x.date)).Nodup →
      r ∈ shopifyData →
      shopProj (entryAt (mergeDailyMetrics shopifyData fbData []) r.date) =
        (r.soldOrders, r.orderValue, r.soldItems)) ∧
    (∀ (shopifyData : List DailyOrdersSummary) (fbData : List DailyAdSpend)
      (r : DailyAdSpend), (fbData.map (fun x => x.date)).Nodup → r ∈ fbData →
      (entryAt (mergeDailyMetrics shopifyData fbData []) r.date).facebookMetaSpend
        = r.spend) := by
  refine ⟨fun e fromMs toMs => rfl, fbFetchAdSpend_err, ?_, ?_, ?_⟩
  · intro shopifyData fbData k e he
    have h := merge_google_default shopifyData fbData [] k (by simp)
    rw [show entryAt (mergeDailyMetrics shopifyData fbData []) k = e by
      simp [entryAt, he]] at h
    exact h
  · intro shopifyData fbData r hnd hr
    show shopProj (entryAt (fbData.foldl applyFacebookRow
      (shopifyData.foldl applyShopifyRow [])) r.date) = _
    rw [(fb_foldl_preserves _ _ _).1]
    exact shopify_foldl_value shopifyData r [] hnd hr
  · intro shopifyData fbData r hnd hr
    show (entryAt (fbData.foldl applyFacebookRow
      (shopifyData.foldl applyShopifyRow [])) r.date).facebookMetaSpend = _
    exact fb_foldl_value fbData r _ hnd hr

theorem daily_spend_channel_degradation_witness :
    googleFetchAdSpend (Except.error "quota exceeded") 0 86400000 = [] ∧
    fbFetchAdSpend (fun _ => FbOutcome.err none) = FbOutcome.err none ∧
    shopProj (entryAt (mergeDailyMetrics [⟨"2024-06-01", 2, 50, 3⟩] [⟨"2024-06-01", 7⟩] [])
      "2024-06-01") = (2, 50, 3) ∧
    (entryAt (mergeDailyMetrics [⟨"2024-06-01", 2, 50, 3⟩] [⟨"2024-06-01", 7⟩] [])
      "2024-06-01").facebookMetaSpend = 7 := by
  have h := daily_spend_channel_degradation
  refine ⟨h.1 "quota exceeded" 0 86400000, ?_, ?_, ?_⟩
  · exact h.2.1 _ none (by rw [callFacebook_err_no_retry _ 0 none rfl (by simp)])
  · exact h.2.2.2.1 [⟨"2024-06-01", 2, 50, 3⟩] [⟨"2024-06-01", 7⟩] ⟨"2024-06-01", 2, 50, 3⟩
      (by simp) (by simp)
  · exact h.2.2.2.2 [⟨"2024-06-01", 2, 50, 3⟩] [⟨"2024-06-01", 7⟩] ⟨"2024-06-01", 7⟩
      (by simp) (by simp)

/-- Claim C7: the spec requires that a failed provider fetch in the
product full-rebuild path leaves the previously persisted product set
unchanged (reset skipped or rolled back).  The job instead deletes the
store's product set before fetching: evaluated with one persisted product
metric and a fetch that throws, the resulting state is empty, not the
original set — a transient fetch failure empties the store's data. -/
theorem product_sync_reset_before_fetch_loses_data :
    handleDailyProductSyncStore [⟨"gid1", "Widget", "", "", 5, 100⟩]
        (Except.error "ECONNRESET") = [] ∧
    ([⟨"gid1", "Widget", "", "", 5, 100⟩] : List ProductMetric) ≠ [] := by
  exact ⟨rfl, by simp⟩

/-- Claim C8: the Google client accumulates each searchStream row's
cost_micros divided by 1,000,000 into that row's date bucket: the daily
amount for a date is the sum of its rows' micros divided by 1,000,000,
and a single row yields exactly costMicros / 1000000. -/
theorem google_cost_micros_conversion (results : List GoogleAdsRow) (d : String) :
    googleSpendAt results d =
      ((results.filter (fun r => r.date == some d)).map (fun r => r.costMicros)).sum
        / 1000000 ∧
    (∀ row : GoogleAdsRow, row.date = some d →
      googleSpendAt [row] d = row.costMicros / 1000000) := by
  refine ⟨googleSpendAt_eq results d, ?_⟩
  intro row hrow
  rw [googleSpendAt_eq]
  simp [List.filter_cons, hrow]

theorem google_cost_micros_conversion_witness :
    googleSpendAt [⟨some "2024-06-01", 1234560000⟩] "2024-06-01" = 123456 / 100 := by
  have h := (google_cost_micros_conversion [⟨some "2024-06-01", 1234560000⟩]
    "2024-06-01").2 ⟨some "2024-06-01", 1234560000⟩ rfl
  rw [h]
  norm_num

/-- Claim C9 counterexample: the claim says the returned list covers every
IST calendar day from the IST date of from through the IST date of to.
With from = 2024-01-01T00:00:00Z and to = 2024-01-02T23:00:00Z the IST date
of to is 2024-01-03 (23:00Z + 5:30), but the fill loop steps 24 hours at a
time while the cursor stays ≤ to, producing entries only for 2024-01-01 and
2024-01-02. -/
theorem google_fill_misses_last_ist_day :
    (googleFetchAdSpend (Except.ok []) 1704067200000 1704236400000).map (fun e => e.date)
      = ["2024-01-01", "2024-01-02"] ∧
    getISTDateString 1704236400000 = "2024-01-03" ∧
    "2024-01-03" ∉ (googleFetchAdSpend (Except.ok []) 1704067200000 1704236400000).map
      (fun e => e.date) := by
  have hds : googleDailySpend [] = [] := by
    simp [googleDailySpend, googleAccumulate]
  have hmap : (googleFetchAdSpend (Except.ok []) 1704067200000 1704236400000).map
      (fun e => e.date) = ["2024-01-01", "2024-01-02"] := by
    show (fillMissingDates (googleDailySpend []) 1704067200000 1704236400000).map _ = _
    rw [hds]
    rw [fillMissingDates_step [] _ _ (by norm_num),
      fillMissingDates_step [] _ _ (by norm_num [msPerDay]),
      fillMissingDates_stop [] _ _ (by norm_num [msPerDay])]
    simp only [List.map_cons, List.map_nil]
    decide
  refine ⟨hmap, by decide, ?_⟩
  rw [hmap]
  decide

/-- Claim C9 (amended): for from ≤ to the Google client returns one entry
per 24-hour step of the cursor, k = 0 .. ⌊(to − from) / day⌋ — consecutive
ascending IST calendar days anchored at the IST date of from (reaching the
IST date of to only when to's IST time of day is not earlier than from's) —
where a day with no API row carries spend 0 and every spend is rounded to
two decimal places. -/
theorem google_daily_spend_shape (results : List GoogleAdsRow) (fromMs toMs : Int)
    (h : fromMs ≤ toMs) :
    googleFetchAdSpend (Except.ok results) fromMs toMs =
      (List.range (((toMs - fromMs) / msPerDay).toNat + 1)).map
        (fun k : Nat => fillEntry (googleDailySpend results)
          (fromMs + (k : Int) * msPerDay)) ∧
    (∀ k : Nat, (fillEntry (googleDailySpend results) (fromMs + (k : Int) * msPerDay)).date
        = getISTDateString (fromMs + (k : Int) * msPerDay)) ∧
    (∀ k : Nat, istDayNumber (fromMs + (k : Int) * msPerDay) = istDayNumber fromMs + k) ∧
    (∀ e ∈ googleFetchAdSpend (Except.ok results) fromMs toMs,
      ((∀ r ∈ results, r.date ≠ some e.date) → e.spend = 0) ∧
      (e.spend * 100).den = 1) := by
  refine ⟨fillMissingDates_eq_range _ fromMs toMs h, fun k => rfl,
    fun k => istDayNumber_add_days fromMs k, ?_⟩
  intro e he
  show _ ∧ _
  rw [show googleFetchAdSpend (Except.ok results) fromMs toMs
      = fillMissingDates (googleDailySpend results) fromMs toMs from rfl,
    fillMissingDates_eq_range _ fromMs toMs h] at he
  rcases List.mem_map.mp he with ⟨k, _, rfl⟩
  constructor
  · intro hnone
    have hd : (fillEntry (googleDailySpend results)
        (fromMs + (k : Int) * msPerDay)).date
        = getISTDateString (fromMs + (k : Int) * msPerDay) := rfl
    rw [hd] at hnone
    show ((((googleDailySpend results).find? _).map _).getD 0 : ℚ) = 0
    rw [googleDailySpend_find_none results _ hnone]
    rfl
  · show ((((googleDailySpend results).find? (fun d => d.date ==
        getISTDateString (fromMs + (k : Int) * msPerDay))).map (fun d => d.spend)).getD 0
        * 100).den = 1
    cases hf : (googleDailySpend results).find? (fun d => d.date ==
        getISTDateString (fromMs + (k : Int) * msPerDay)) with
    | none =>
      rw [Option.map_none', Option.getD_none, zero_mul]
      rfl
    | some x =>
      have hx : x ∈ googleDailySpend results := List.mem_of_find?_eq_some hf
      rcases (mem_googleDailySpend results x hx).2 with ⟨q, hq⟩
      simp only [Option.map_some', Option.getD_some, hq]
      exact round2_mul_100_den q

theorem google_daily_spend_shape_witness :
    googleFetchAdSpend (Except.ok []) 0 0 =
      (List.range 1).map
        (fun k : Nat => fillEntry (googleDailySpend []) ((0 : Int) + (k : Int) * msPerDay)) := by
  have h := (google_daily_spend_shape [] 0 0 le_rfl).1
  simpa [msPerDay] using h

/-- Claim C10: in the Facebook metrics calculation every derived ratio
metric is zero whenever its denominator is zero — costPerResult for zero
results, cpm/ctr/linkCtr for zero impressions, cpc for zero clicks and
resultRoas for zero spend — so no division by zero reaches the output. -/
theorem facebook_ratio_metrics_guard (insight : FbInsight) (objective : String) :
    (primaryResults insight objective = 0 →
      (calculateMetrics insight objective).costPerResult = 0) ∧
    (insight.impressions = 0 →
      (calculateMetrics insight objective).cpm = 0 ∧
      (calculateMetrics insight objective).ctr = 0 ∧
      (calculateMetrics insight objective).linkCtr = 0) ∧
    (insight.clicks = 0 → (calculateMetrics insight objective).cpc = 0) ∧
    (insight.spend = 0 → (calculateMetrics insight objective).resultRoas = 0) := by
  refine ⟨?_, ?_, ?_, ?_⟩ <;> intro h <;> simp [calculateMetrics, h]

theorem facebook_ratio_metrics_guard_witness :
    (calculateMetrics ⟨0, 0, 0, 0, 0, 0, [], []⟩ "").costPerResult = 0 ∧
    (calculateMetrics ⟨0, 0, 0, 0, 0, 0, [], []⟩ "").cpm = 0 ∧
    (calculateMetrics ⟨0, 0, 0, 0, 0, 0, [], []⟩ "").ctr = 0 ∧
    (calculateMetrics ⟨0, 0, 0, 0, 0, 0, [], []⟩ "").linkCtr = 0 ∧
    (calculateMetrics ⟨0, 0, 0, 0, 0, 0, [], []⟩ "").cpc = 0 ∧
    (calculateMetrics ⟨0, 0, 0, 0, 0, 0, [], []⟩ "").resultRoas = 0 := by
  have h := facebook_ratio_metrics_guard ⟨0, 0, 0, 0, 0, 0, [], []⟩ ""
  refine ⟨h.1 (by simp only [primaryResults, getActionValue, List.find?_nil,
      Option.map_none', Option.getD_none, Nat.cast_zero, if_pos rfl]; split <;> rfl),
    (h.2.1 rfl).1, (h.2.1 rfl).2.1, (h.2.1 rfl).2.2, h.2.2.1 rfl, h.2.2.2 rfl⟩
